import Mathlib

/-!
Shallow embedding of the `fixed_deque` crate (`src/lib.rs`): a bounded
`VecDeque` wrapper `Deque<T>` with a fixed `maxlen` that evicts from the
opposite end when a new element is pushed onto a full deque.

The Rust `VecDeque<T>` backing store is modelled as a `List T` (front of
the deque is the head of the list).  Operations that can panic
(`insert` with an out-of-range index, `rotate_left`/`rotate_right` with
`n > len()`) are modelled as `Option`-returning functions, `none`
standing for the panic.
-/

namespace FixedDeque

/-- `struct Deque<T> { deque: VecDeque<T>, maxlen: usize }`. -/
structure Deque (T : Type) where
  deque : List T
  maxlen : Nat
deriving Repr, DecidableEq

namespace Deque

variable {T : Type}

/-- `Deque::new(maxlen)`: empty deque with the given maximum length. -/
def new (T : Type) (maxlen : Nat) : Deque T :=
  { deque := [], maxlen := maxlen }

/-- `Deque::from(value, maxlen)`: one-element deque (`VecDeque::from([value])`),
with the given maximum length.  Note the source performs no truncation here. -/
def fromValue (value : T) (maxlen : Nat) : Deque T :=
  { deque := [value], maxlen := maxlen }

/-- `Deque::from_vec(vec, maxlen)`: `vec.truncate(maxlen)` then wrap.
Also the body of `impl From<(Vec<T>, usize)>`. -/
def from_vec (vec : List T) (maxlen : Nat) : Deque T :=
  { deque := vec.take maxlen, maxlen := maxlen }

/-- `Deque::from_vec_deque(deque, maxlen)`: `deque.truncate(maxlen)` then wrap. -/
def from_vec_deque (dq : List T) (maxlen : Nat) : Deque T :=
  { deque := dq.take maxlen, maxlen := maxlen }

/-- `Deque::len()`. -/
def len (d : Deque T) : Nat :=
  d.deque.length

/-- `Deque::is_full()`: `self.deque.len() == self.maxlen`. -/
def is_full (d : Deque T) : Bool :=
  d.deque.length == d.maxlen

/-- `Deque::is_empty()`. -/
def is_empty (d : Deque T) : Bool :=
  d.deque.isEmpty

/-- `Deque::remaining_capacity()`: `maxlen.saturating_sub(len)`
(Nat subtraction is saturating). -/
def remaining_capacity (d : Deque T) : Nat :=
  d.maxlen - d.deque.length

/-- `Deque::front()`. -/
def front (d : Deque T) : Option T :=
  d.deque.head?

/-- `Deque::back()`. -/
def back (d : Deque T) : Option T :=
  d.deque.getLast?

/-- `Deque::get(index)`. -/
def get (d : Deque T) (index : Nat) : Option T :=
  d.deque[index]?

/-- `Deque::push_back(value)`: if `len == maxlen`, pop the front element and
return it after appending; else just append.  Returns the new state paired
with the evicted element (`VecDeque::pop_front` of `[]` is `none`, and
`tail [] ++ [v] = [v]`, so the single expression matches both the empty and
non-empty full cases). -/
def push_back (d : Deque T) (value : T) : Deque T × Option T :=
  if d.deque.length = d.maxlen then
    ({ d with deque := d.deque.tail ++ [value] }, d.deque.head?)
  else
    ({ d with deque := d.deque ++ [value] }, none)

/-- `Deque::push_front(value)`: if `len == maxlen`, pop the back element and
return it after prepending; else just prepend. -/
def push_front (d : Deque T) (value : T) : Deque T × Option T :=
  if d.deque.length = d.maxlen then
    ({ d with deque := value :: d.deque.dropLast }, d.deque.getLast?)
  else
    ({ d with deque := value :: d.deque }, none)

/-- `Deque::pop_front()`. -/
def pop_front (d : Deque T) : Deque T × Option T :=
  ({ d with deque := d.deque.tail }, d.deque.head?)

/-- `Deque::pop_back()`. -/
def pop_back (d : Deque T) : Deque T × Option T :=
  ({ d with deque := d.deque.dropLast }, d.deque.getLast?)

/-- `Deque::clear()`. -/
def clear (d : Deque T) : Deque T :=
  { d with deque := [] }

/-- `Deque::truncate(len)`. -/
def truncate (d : Deque T) (n : Nat) : Deque T :=
  { d with deque := d.deque.take n }

/-- `Deque::remove(index)`: `VecDeque::remove` returns `None` and leaves the
deque unchanged when `index` is out of bounds (`List.eraseIdx` is the
identity there). -/
def removeAt (d : Deque T) (index : Nat) : Deque T × Option T :=
  ({ d with deque := d.deque.eraseIdx index }, d.deque[index]?)

/-- `Deque::retain(f)`. -/
def retain (d : Deque T) (f : T → Bool) : Deque T :=
  { d with deque := d.deque.filter f }

/-- `Deque::index(value)`: `iter().position(|x| x == value)`. -/
def index [DecidableEq T] (d : Deque T) (value : T) : Option Nat :=
  d.deque.findIdx? (· = value)

/-- `Deque::remove_first(value)`: find the first equal element and remove it. -/
def remove_first [DecidableEq T] (d : Deque T) (value : T) : Deque T × Option T :=
  match d.index value with
  | some pos => d.removeAt pos
  | none => (d, none)

/-- `Deque::reverse()`. -/
def reverse (d : Deque T) : Deque T :=
  { d with deque := d.deque.reverse }

/-- `Deque::swap(i, j)`: panics (here `none`) if either index is out of
bounds. -/
def swap (d : Deque T) (i j : Nat) : Option (Deque T) :=
  match d.deque[i]?, d.deque[j]? with
  | some a, some b => some { d with deque := (d.deque.set i b).set j a }
  | _, _ => none

/-- `Deque::drain(start..end)` restricted to half-open ranges: removes the
elements in `[s, e)`; panics (here `none`) if `s > e` or `e > len`.  The
drained elements themselves are also returned. -/
def drain (d : Deque T) (s e : Nat) : Option (Deque T × List T) :=
  if s ≤ e ∧ e ≤ d.deque.length then
    some ({ d with deque := d.deque.take s ++ d.deque.drop e },
      (d.deque.drop s).take (e - s))
  else
    none

/-- `Deque::rotate_left(n)`: delegates to `VecDeque::rotate_left`, which
panics (here `none`) if `n > len()`; otherwise the first `n` elements move
to the back. -/
def rotate_left (d : Deque T) (n : Nat) : Option (Deque T) :=
  if n ≤ d.deque.length then
    some { d with deque := d.deque.drop n ++ d.deque.take n }
  else
    none

/-- `Deque::rotate_right(n)`: panics (here `none`) if `n > len()`; otherwise
the last `n` elements move to the front (`VecDeque::rotate_right n` agrees
with `rotate_left (len - n)`). -/
def rotate_right (d : Deque T) (n : Nat) : Option (Deque T) :=
  if n ≤ d.deque.length then
    some { d with deque :=
      d.deque.drop (d.deque.length - n) ++ d.deque.take (d.deque.length - n) }
  else
    none

/-- `Deque::insert(index, value)`: when full, `pop_back` first, then
`VecDeque::insert` against the post-eviction length; `VecDeque::insert`
panics (here `none`) when the index exceeds the (current) length. -/
def insert (d : Deque T) (index : Nat) (value : T) : Option (Deque T × Option T) :=
  if d.deque.length = d.maxlen then
    if index ≤ d.deque.dropLast.length then
      some ({ d with deque := d.deque.dropLast.insertIdx index value }, d.deque.getLast?)
    else
      none
  else
    if index ≤ d.deque.length then
      some ({ d with deque := d.deque.insertIdx index value }, none)
    else
      none

/-- `impl Extend<T> for Deque<T>`: if the iterator's upper size hint is
`Some(upper)` with `upper <= remaining_capacity()`, bulk-append directly;
otherwise push the elements one at a time.  `hint` is the iterator's upper
size bound (`size_hint().1`). -/
def extend (d : Deque T) (vs : List T) (hint : Option Nat) : Deque T :=
  match hint with
  | some upper =>
    if upper ≤ d.remaining_capacity then
      { d with deque := d.deque ++ vs }
    else
      vs.foldl (fun s v => (s.push_back v).1) d
  | none =>
    vs.foldl (fun s v => (s.push_back v).1) d

/-- `Deque::extend_front(iter)`: `for item in iter { self.push_front(item) }`. -/
def extend_front (d : Deque T) (vs : List T) : Deque T :=
  vs.foldl (fun s v => (s.push_front v).1) d

/-- `impl PartialEq for Deque<T>`: `self.deque == other.deque` — the
`maxlen` fields are not compared. -/
def deqEq [DecidableEq T] (a b : Deque T) : Bool :=
  a.deque == b.deque

/-- `impl FromIterator<T> for Deque<T>`: collect the iterator, then use its
length as `maxlen`. -/
def from_iter (vs : List T) : Deque T :=
  from_vec_deque vs vs.length

end Deque

/-- One public mutating operation of the crate.  `extendOp vs known`
carries whether the iterator reports an exact upper size bound
(`size_hint().1 = Some(vs.length)`, as for slices and vectors) or none at
all. -/
inductive Op (T : Type) where
  | pushBackOp (v : T)
  | pushFrontOp (v : T)
  | popFrontOp
  | popBackOp
  | insertOp (i : Nat) (v : T)
  | extendOp (vs : List T) (known : Bool)
  | extendFrontOp (vs : List T)
  | clearOp
  | truncateOp (n : Nat)
  | removeOp (i : Nat)
  | removeFirstOp (v : T)
  | retainOp (f : T → Bool)
  | drainOp (s e : Nat)
  | rotateLeftOp (n : Nat)
  | rotateRightOp (n : Nat)
  | reverseOp
  | swapOp (i j : Nat)

/-- Run one operation.  An operation that panics (modelled by `none`)
never returns, so for statements about the state "after the operation
returns" it is modelled as leaving the state unchanged. -/
def applyOp [DecidableEq T] (d : Deque T) : Op T → Deque T
  | .pushBackOp v => (d.push_back v).1
  | .pushFrontOp v => (d.push_front v).1
  | .popFrontOp => d.pop_front.1
  | .popBackOp => d.pop_back.1
  | .insertOp i v =>
    match d.insert i v with
    | some (d', _) => d'
    | none => d
  | .extendOp vs known => d.extend vs (if known then some vs.length else none)
  | .extendFrontOp vs => d.extend_front vs
  | .clearOp => d.clear
  | .truncateOp n => d.truncate n
  | .removeOp i => (d.removeAt i).1
  | .removeFirstOp v => (d.remove_first v).1
  | .retainOp f => d.retain f
  | .drainOp s e =>
    match d.drain s e with
    | some (d', _) => d'
    | none => d
  | .rotateLeftOp n => (d.rotate_left n).getD d
  | .rotateRightOp n => (d.rotate_right n).getD d
  | .reverseOp => d.reverse
  | .swapOp i j => (d.swap i j).getD d

/-- Run a sequence of operations front to back. -/
def applyOps [DecidableEq T] (d : Deque T) (ops : List (Op T)) : Deque T :=
  ops.foldl applyOp d

namespace Deque

variable {T : Type}

theorem push_back_maxlen (d : Deque T) (v : T) : (d.push_back v).1.maxlen = d.maxlen := by
  unfold push_back
  split <;> rfl

theorem push_front_maxlen (d : Deque T) (v : T) : (d.push_front v).1.maxlen = d.maxlen := by
  unfold push_front
  split <;> rfl

theorem push_back_len_le (d : Deque T) (v : T) (h1 : 1 ≤ d.maxlen)
    (h2 : d.deque.length ≤ d.maxlen) : (d.push_back v).1.deque.length ≤ d.maxlen := by
  unfold push_back
  split
  · next heq =>
    simp only [List.length_append, List.length_tail, List.length_cons, List.length_nil]
    omega
  · next hne =>
    simp only [List.length_append, List.length_cons, List.length_nil]
    omega

theorem push_front_len_le (d : Deque T) (v : T) (h1 : 1 ≤ d.maxlen)
    (h2 : d.deque.length ≤ d.maxlen) : (d.push_front v).1.deque.length ≤ d.maxlen := by
  unfold push_front
  split
  · next heq =>
    simp only [List.length_cons, List.length_dropLast]
    omega
  · next hne =>
    simp only [List.length_cons]
    omega

theorem foldl_push_back_maxlen (vs : List T) (d : Deque T) :
    (vs.foldl (fun s v => (s.push_back v).1) d).maxlen = d.maxlen := by
  induction vs generalizing d with
  | nil => rfl
  | cons v vs ih => rw [List.foldl_cons, ih, push_back_maxlen]

theorem foldl_push_front_maxlen (vs : List T) (d : Deque T) :
    (vs.foldl (fun s v => (s.push_front v).1) d).maxlen = d.maxlen := by
  induction vs generalizing d with
  | nil => rfl
  | cons v vs ih => rw [List.foldl_cons, ih, push_front_maxlen]

theorem foldl_push_back_len_le (vs : List T) (d : Deque T) (h1 : 1 ≤ d.maxlen)
    (h2 : d.deque.length ≤ d.maxlen) :
    (vs.foldl (fun s v => (s.push_back v).1) d).deque.length ≤ d.maxlen := by
  induction vs generalizing d with
  | nil => exact h2
  | cons v vs ih =>
    rw [List.foldl_cons]
    have hm := push_back_maxlen d v
    have := ih (d.push_back v).1 (hm ▸ h1) (hm ▸ push_back_len_le d v h1 h2)
    rwa [hm] at this

theorem foldl_push_front_len_le (vs : List T) (d : Deque T) (h1 : 1 ≤ d.maxlen)
    (h2 : d.deque.length ≤ d.maxlen) :
    (vs.foldl (fun s v => (s.push_front v).1) d).deque.length ≤ d.maxlen := by
  induction vs generalizing d with
  | nil => exact h2
  | cons v vs ih =>
    rw [List.foldl_cons]
    have hm := push_front_maxlen d v
    have := ih (d.push_front v).1 (hm ▸ h1) (hm ▸ push_front_len_le d v h1 h2)
    rwa [hm] at this

theorem extend_maxlen (d : Deque T) (vs : List T) (hint : Option Nat) :
    (d.extend vs hint).maxlen = d.maxlen := by
  unfold extend
  cases hint with
  | none => exact foldl_push_back_maxlen vs d
  | some upper =>
    dsimp only
    split
    · rfl
    · exact foldl_push_back_maxlen vs d

theorem extend_front_maxlen (d : Deque T) (vs : List T) :
    (d.extend_front vs).maxlen = d.maxlen := foldl_push_front_maxlen vs d

theorem insert_maxlen (d : Deque T) (i : Nat) (v : T) (r : Deque T × Option T)
    (h : d.insert i v = some r) : r.1.maxlen = d.maxlen := by
  unfold insert at h
  split at h
  · split at h
    · cases h
      rfl
    · cases h
  · split at h
    · cases h
      rfl
    · cases h

theorem drain_maxlen (d : Deque T) (s e : Nat) (r : Deque T × List T)
    (h : d.drain s e = some r) : r.1.maxlen = d.maxlen := by
  unfold drain at h
  split at h
  · cases h
    rfl
  · cases h

theorem drain_len_le (d : Deque T) (s e : Nat) (h2 : d.deque.length ≤ d.maxlen)
    (r : Deque T × List T) (h : d.drain s e = some r) :
    r.1.deque.length ≤ d.maxlen := by
  unfold drain at h
  split at h
  · cases h
    show (d.deque.take s ++ d.deque.drop e).length ≤ d.maxlen
    rw [List.length_append, List.length_take, List.length_drop]
    omega
  · cases h

theorem insert_len_le (d : Deque T) (i : Nat) (v : T) (h1 : 1 ≤ d.maxlen)
    (h2 : d.deque.length ≤ d.maxlen)
    (r : Deque T × Option T) (h : d.insert i v = some r) :
    r.1.deque.length ≤ d.maxlen := by
  unfold insert at h
  split at h
  · next hfull =>
    split at h
    · next hi =>
      cases h
      have hd : d.deque.dropLast.length = d.deque.length - 1 := List.length_dropLast _
      simp only [List.length_insertIdx _ _ hi]
      omega
    · cases h
  · next hne =>
    split at h
    · next hi =>
      cases h
      simp only [List.length_insertIdx _ _ hi]
      omega
    · cases h

end Deque

theorem applyOp_maxlen [DecidableEq T] (d : Deque T) (op : Op T) :
    (applyOp d op).maxlen = d.maxlen := by
  cases op with
  | pushBackOp v => exact Deque.push_back_maxlen d v
  | pushFrontOp v => exact Deque.push_front_maxlen d v
  | popFrontOp => rfl
  | popBackOp => rfl
  | insertOp i v =>
    show (match d.insert i v with | some (d', _) => d' | none => d).maxlen = d.maxlen
    cases h : d.insert i v with
    | none => rfl
    | some r => exact Deque.insert_maxlen d i v r h
  | extendOp vs known => exact Deque.extend_maxlen d vs _
  | extendFrontOp vs => exact Deque.extend_front_maxlen d vs
  | clearOp => rfl
  | truncateOp n => rfl
  | removeOp i => rfl
  | removeFirstOp v =>
    show (d.remove_first v).1.maxlen = d.maxlen
    unfold Deque.remove_first
    split <;> rfl
  | retainOp f => rfl
  | drainOp s e =>
    show (match d.drain s e with | some (d', _) => d' | none => d).maxlen = d.maxlen
    cases h : d.drain s e with
    | none => rfl
    | some r => exact Deque.drain_maxlen d s e r h
  | rotateLeftOp n =>
    show ((d.rotate_left n).getD d).maxlen = d.maxlen
    unfold Deque.rotate_left
    split <;> rfl
  | rotateRightOp n =>
    show ((d.rotate_right n).getD d).maxlen = d.maxlen
    unfold Deque.rotate_right
    split <;> rfl
  | reverseOp => rfl
  | swapOp i j =>
    show ((d.swap i j).getD d).maxlen = d.maxlen
    unfold Deque.swap
    split <;> rfl

theorem applyOp_len_le [DecidableEq T] (d : Deque T) (h1 : 1 ≤ d.maxlen)
    (h2 : d.deque.length ≤ d.maxlen) (op : Op T) :
    (applyOp d op).deque.length ≤ d.maxlen := by
  cases op with
  | pushBackOp v => exact Deque.push_back_len_le d v h1 h2
  | pushFrontOp v => exact Deque.push_front_len_le d v h1 h2
  | popFrontOp =>
    show d.deque.tail.length ≤ d.maxlen
    rw [List.length_tail]
    omega
  | popBackOp =>
    show d.deque.dropLast.length ≤ d.maxlen
    rw [List.length_dropLast]
    omega
  | insertOp i v =>
    show (match d.insert i v with | some (d', _) => d' | none => d).deque.length ≤ d.maxlen
    cases h : d.insert i v with
    | none => exact h2
    | some r => exact Deque.insert_len_le d i v h1 h2 r h
  | extendOp vs known =>
    show (d.extend vs (if known then some vs.length else none)).deque.length ≤ d.maxlen
    cases known with
    | false => exact Deque.foldl_push_back_len_le vs d h1 h2
    | true =>
      show (d.extend vs (some vs.length)).deque.length ≤ d.maxlen
      unfold Deque.extend
      split
      · next upper heq =>
        injection heq with heq'
        subst heq'
        split
        · next hfit =>
          show (d.deque ++ vs).length ≤ d.maxlen
          rw [List.length_append]
          unfold Deque.remaining_capacity at hfit
          omega
        · exact Deque.foldl_push_back_len_le vs d h1 h2
      · next heq => exact Option.noConfusion heq
  | extendFrontOp vs => exact Deque.foldl_push_front_len_le vs d h1 h2
  | clearOp =>
    show ([] : List T).length ≤ d.maxlen
    simp
  | truncateOp n =>
    show (d.deque.take n).length ≤ d.maxlen
    rw [List.length_take]
    omega
  | removeOp i =>
    show (d.deque.eraseIdx i).length ≤ d.maxlen
    rw [List.length_eraseIdx]
    split <;> omega
  | removeFirstOp v =>
    show (d.remove_first v).1.deque.length ≤ d.maxlen
    unfold Deque.remove_first
    split
    · show (d.deque.eraseIdx _).length ≤ d.maxlen
      rw [List.length_eraseIdx]
      split <;> omega
    · exact h2
  | retainOp f =>
    show (d.deque.filter f).length ≤ d.maxlen
    exact le_trans (List.length_filter_le f d.deque) h2
  | drainOp s e =>
    show (match d.drain s e with | some (d', _) => d' | none => d).deque.length ≤ d.maxlen
    cases h : d.drain s e with
    | none => exact h2
    | some r => exact Deque.drain_len_le d s e h2 r h
  | rotateLeftOp n =>
    show ((d.rotate_left n).getD d).deque.length ≤ d.maxlen
    unfold Deque.rotate_left
    split
    · show (d.deque.drop n ++ d.deque.take n).length ≤ d.maxlen
      rw [List.length_append, List.length_take, List.length_drop]
      omega
    · exact h2
  | rotateRightOp n =>
    show ((d.rotate_right n).getD d).deque.length ≤ d.maxlen
    unfold Deque.rotate_right
    split
    · show (d.deque.drop _ ++ d.deque.take _).length ≤ d.maxlen
      rw [List.length_append, List.length_take, List.length_drop]
      omega
    · exact h2
  | reverseOp =>
    show d.deque.reverse.length ≤ d.maxlen
    rw [List.length_reverse]
    exact h2
  | swapOp i j =>
    show ((d.swap i j).getD d).deque.length ≤ d.maxlen
    unfold Deque.swap
    split
    · show ((d.deque.set i _).set j _).length ≤ d.maxlen
      rw [List.length_set, List.length_set]
      exact h2
    · exact h2

theorem applyOps_len_le [DecidableEq T] (d : Deque T) (h1 : 1 ≤ d.maxlen)
    (h2 : d.deque.length ≤ d.maxlen) (ops : List (Op T)) :
    (applyOps d ops).deque.length ≤ d.maxlen ∧ (applyOps d ops).maxlen = d.maxlen := by
  induction ops generalizing d with
  | nil => exact ⟨h2, rfl⟩
  | cons op ops ih =>
    have hm := applyOp_maxlen d op
    have step := applyOp_len_le d h1 h2 op
    have := ih (applyOp d op) (hm ▸ h1) (hm ▸ step)
    exact ⟨hm ▸ this.1, hm ▸ this.2⟩

/-- **C1** is false as stated: with capacity 0 the invariant `len() ≤ capacity`
does not survive every operation.  Concretely, `Deque::new(0)` followed by
`push_back(1)` returns normally and leaves a deque of length 1 > 0
(the eviction branch pops from an empty deque and then pushes). -/
theorem C1_counterexample :
    ¬ ((applyOps (Deque.new Nat 0) [Op.pushBackOp 1]).len ≤
        (applyOps (Deque.new Nat 0) [Op.pushBackOp 1]).maxlen) := by
  decide

/-- **C1 (amended)**: for every deque whose capacity (`maxlen`) is at least 1
and whose length does not exceed it — which every constructor guarantees when
given a capacity ≥ 1 — `len() ≤ capacity` holds after every sequence of
public operations, and the capacity never changes. -/
theorem C1_amended_invariant [DecidableEq T] (d : Deque T) (h1 : 1 ≤ d.maxlen)
    (h2 : d.len ≤ d.maxlen) (ops : List (Op T)) :
    (applyOps d ops).len ≤ (applyOps d ops).maxlen ∧
      (applyOps d ops).maxlen = d.maxlen := by
  have h := applyOps_len_le d h1 h2 ops
  exact ⟨by show (applyOps d ops).deque.length ≤ _; rw [h.2]; exact h.1, h.2⟩

/-- Witness for `C1_amended_invariant` at a concrete deque and operation
sequence. -/
theorem C1_amended_invariant_witness :
    1 ≤ (Deque.from_vec [1, 2] 2 : Deque Nat).maxlen ∧
    (Deque.from_vec [1, 2] 2 : Deque Nat).len ≤ (Deque.from_vec [1, 2] 2 : Deque Nat).maxlen ∧
    ((applyOps (Deque.from_vec [1, 2] 2 : Deque Nat)
        [Op.pushBackOp 3, Op.insertOp 1 7, Op.extendOp [4, 5, 6] false,
         Op.rotateLeftOp 1, Op.pushFrontOp 9, Op.drainOp 0 1, Op.reverseOp]).len ≤
      (applyOps (Deque.from_vec [1, 2] 2 : Deque Nat)
        [Op.pushBackOp 3, Op.insertOp 1 7, Op.extendOp [4, 5, 6] false,
         Op.rotateLeftOp 1, Op.pushFrontOp 9, Op.drainOp 0 1, Op.reverseOp]).maxlen) :=
  ⟨by decide, by decide,
    (C1_amended_invariant (Deque.from_vec [1, 2] 2) (by decide) (by decide) _).1⟩

/-- **C2**: pushing onto a full deque of capacity ≥ 1 returns exactly the
element that was at the opposite end, places the new value at the push-side
end, keeps the length at capacity and shifts the retained elements by one
position without reordering them; on a non-full deque both pushes return
`none` and only append/prepend. -/
theorem C2_push_eviction {T : Type} (d : Deque T) (v : T) :
    (d.len = d.maxlen → 1 ≤ d.maxlen →
      (d.push_back v).2 = d.front ∧ (d.push_back v).2.isSome = true ∧
      (d.push_back v).1.back = some v ∧ (d.push_back v).1.len = d.maxlen ∧
      (∀ i, i + 1 < d.len → (d.push_back v).1.get i = d.get (i + 1)) ∧
      (d.push_front v).2 = d.back ∧ (d.push_front v).2.isSome = true ∧
      (d.push_front v).1.front = some v ∧ (d.push_front v).1.len = d.maxlen ∧
      (∀ i, i + 1 < d.len → (d.push_front v).1.get (i + 1) = d.get i)) ∧
    (d.len ≠ d.maxlen →
      (d.push_back v).2 = none ∧ (d.push_back v).1.deque = d.deque ++ [v] ∧
      (d.push_front v).2 = none ∧ (d.push_front v).1.deque = v :: d.deque) := by
  constructor
  · intro hfull hpos
    have hfull' : d.deque.length = d.maxlen := hfull
    have hne : d.deque ≠ [] := by
      intro hnil
      rw [hnil] at hfull'
      simp at hfull'
      omega
    simp only [Deque.push_back, Deque.push_front, if_pos hfull']
    refine ⟨rfl, ?_, ?_, ?_, ?_, rfl, ?_, rfl, ?_, ?_⟩
    · exact List.head?_isSome.mpr hne
    · show (d.deque.tail ++ [v]).getLast? = some v
      exact List.getLast?_concat _
    · show (d.deque.tail ++ [v]).length = d.maxlen
      rw [List.length_append, List.length_tail]
      simp only [List.length_cons, List.length_nil]
      omega
    · intro i hi
      show (d.deque.tail ++ [v])[i]? = d.deque[i + 1]?
      have hlt : i < d.deque.tail.length := by
        rw [List.length_tail]
        exact Nat.lt_sub_of_add_lt hi
      rw [List.getElem?_append_left hlt, ← List.drop_one, List.getElem?_drop,
        Nat.add_comm]
    · exact List.getLast?_isSome.mpr hne
    · show (v :: d.deque.dropLast).length = d.maxlen
      rw [List.length_cons, List.length_dropLast]
      omega
    · intro i hi
      show (v :: d.deque.dropLast)[i + 1]? = d.deque[i]?
      rw [List.getElem?_cons_succ, List.dropLast_eq_take, List.getElem?_take]
      have hlt : i < d.deque.length - 1 := Nat.lt_sub_of_add_lt hi
      rw [if_pos hlt]
  · intro hne
    have hne' : ¬ d.deque.length = d.maxlen := hne
    simp only [Deque.push_back, Deque.push_front, if_neg hne']
    simp

/-- Witness for `C2_push_eviction` on the full deque `[1, 2, 3]` of
capacity 3 and on the non-full deque `[1]` of capacity 3. -/
theorem C2_push_eviction_witness :
    ((Deque.from_vec [1, 2, 3] 3 : Deque Nat).len = 3 ∧
      ((Deque.from_vec [1, 2, 3] 3 : Deque Nat).push_back 4).2 =
        (Deque.from_vec [1, 2, 3] 3 : Deque Nat).front) ∧
    ((Deque.from_vec [1] 3 : Deque Nat).len ≠ 3 ∧
      ((Deque.from_vec [1] 3 : Deque Nat).push_back 4).1.deque = [1, 4]) :=
  ⟨⟨by decide,
    ((C2_push_eviction (Deque.from_vec [1, 2, 3] 3) 4).1 (by decide) (by decide)).1⟩,
   ⟨by decide,
    (((C2_push_eviction (Deque.from_vec [1] 3) 4).2 (by decide)).2.1.trans (by decide))⟩⟩

theorem insertIdx_take_drop {T : Type} (i : Nat) (v : T) (l : List T) (h : i ≤ l.length) :
    l.insertIdx i v = l.take i ++ v :: l.drop i := by
  induction l generalizing i with
  | nil =>
    have : i = 0 := by simpa using h
    subst this
    simp [List.insertIdx]
  | cons x xs ih =>
    cases i with
    | zero => simp [List.insertIdx_zero]
    | succ n =>
      rw [List.insertIdx_succ_cons, List.take_succ_cons, List.drop_succ_cons,
        List.cons_append, ih n (by simpa using h)]

/-- **C3**: `insert(i, v)` on a full deque of capacity C ≥ 1 with
`i ≤ C - 1` removes the back element, inserts `v` at index `i` shifting the
elements at `i..` one place to the right, returns the removed back element,
and keeps the length at C; on a non-full deque with `i ≤ len()` it inserts
without removing anything and returns no eviction.  Concretely,
`[1, 2, 3]` with capacity 3 under `insert(1, 10)` evicts 3 and yields
`[1, 10, 2]`. -/
theorem C3_insert_eviction {T : Type} (d : Deque T) (i : Nat) (v : T) :
    (d.len = d.maxlen → 1 ≤ d.maxlen → i ≤ d.maxlen - 1 →
      d.insert i v = some
        ({ d with deque :=
            d.deque.dropLast.take i ++ v :: d.deque.dropLast.drop i }, d.back) ∧
      (d.insert i v).map (fun r => r.1.len) = some d.maxlen) ∧
    (d.len ≠ d.maxlen → i ≤ d.len →
      d.insert i v =
        some ({ d with deque := d.deque.take i ++ v :: d.deque.drop i }, none)) ∧
    ((Deque.from_vec [1, 2, 3] 3 : Deque Nat).insert 1 10 =
      some (Deque.from_vec [1, 10, 2] 3, some 3)) := by
  refine ⟨?_, ?_, by decide⟩
  · intro hfull hpos hi
    have hfull' : d.deque.length = d.maxlen := hfull
    have hdl : d.deque.dropLast.length = d.maxlen - 1 := by
      rw [List.length_dropLast]
      omega
    have hi' : i ≤ d.deque.dropLast.length := by omega
    have heq : d.insert i v = some
        ({ d with deque :=
            d.deque.dropLast.take i ++ v :: d.deque.dropLast.drop i }, d.back) := by
      unfold Deque.insert
      rw [if_pos hfull', if_pos hi', insertIdx_take_drop i v _ hi']
      rfl
    refine ⟨heq, ?_⟩
    rw [heq, Option.map_some']
    show some (d.deque.dropLast.take i ++ v :: d.deque.dropLast.drop i).length = _
    rw [List.length_append, List.length_take, List.length_cons, List.length_drop]
    congr 1
    omega
  · intro hne hi
    have hne' : ¬ d.deque.length = d.maxlen := hne
    have hi' : i ≤ d.deque.length := hi
    unfold Deque.insert
    rw [if_neg hne', if_pos hi', insertIdx_take_drop i v _ hi']

/-- Witness for `C3_insert_eviction`: both the full branch
(`[1, 2, 3]` capacity 3) and the non-full branch (`[1, 3, 4]` capacity 5). -/
theorem C3_insert_eviction_witness :
    ((Deque.from_vec [1, 2, 3] 3 : Deque Nat).insert 1 10 =
        some ({ deque := [1, 10, 2], maxlen := 3 }, some 3)) ∧
    ((Deque.from_vec [1, 3, 4] 5 : Deque Nat).insert 1 2 =
        some ({ deque := [1, 2, 3, 4], maxlen := 5 }, none)) :=
  ⟨(((C3_insert_eviction (Deque.from_vec [1, 2, 3] 3) 1 10).1 (by decide) (by decide)
      (by decide)).1).trans (by decide),
   (((C3_insert_eviction (Deque.from_vec [1, 3, 4] 5) 1 2).2.1 (by decide)
      (by decide))).trans (by decide)⟩

theorem foldl_push_back_no_evict {T : Type} (vs : List T) (d : Deque T)
    (h : d.deque.length + vs.length ≤ d.maxlen) :
    vs.foldl (fun s v => (s.push_back v).1) d = { d with deque := d.deque ++ vs } := by
  induction vs generalizing d with
  | nil => simp
  | cons v vs ih =>
    rw [List.foldl_cons]
    have hne : ¬ d.deque.length = d.maxlen := by
      simp only [List.length_cons] at h
      omega
    have hpb : (d.push_back v).1 = { d with deque := d.deque ++ [v] } := by
      unfold Deque.push_back
      rw [if_neg hne]
    rw [hpb, ih { d with deque := d.deque ++ [v] }
      (by simp only [List.length_append, List.length_cons, List.length_nil] at h ⊢; omega)]
    simp

theorem foldl_push_front_no_evict {T : Type} (vs : List T) (d : Deque T)
    (h : d.deque.length + vs.length ≤ d.maxlen) :
    (vs.foldl (fun s v => (s.push_front v).1) d).deque = vs.reverse ++ d.deque := by
  induction vs generalizing d with
  | nil => simp
  | cons v vs ih =>
    rw [List.foldl_cons]
    have hne : ¬ d.deque.length = d.maxlen := by
      simp only [List.length_cons] at h
      omega
    have hpf : (d.push_front v).1 = { d with deque := v :: d.deque } := by
      unfold Deque.push_front
      rw [if_neg hne]
    rw [hpf, ih { d with deque := v :: d.deque }
      (by simp only [List.length_cons] at h ⊢; omega)]
    simp

/-- **C4**: for every iterator whose upper size hint is sound
(`hint = some u → vs.length ≤ u`, in particular `hint = none`), `extend`
leaves the deque in exactly the state reached by `push_back`-ing each value
in iteration order — the bulk-append fast path and the one-at-a-time path
have identical observable results. -/
theorem C4_extend_refines {T : Type} (d : Deque T) (vs : List T) (hint : Option Nat)
    (hsound : ∀ u, hint = some u → vs.length ≤ u) :
    d.extend vs hint = vs.foldl (fun s v => (s.push_back v).1) d := by
  unfold Deque.extend
  cases hint with
  | none => rfl
  | some upper =>
    have hlen : vs.length ≤ upper := hsound upper rfl
    split
    · next u heq =>
      injection heq with heq'
      subst heq'
      split
      · next hfit =>
        unfold Deque.remaining_capacity at hfit
        cases vs with
        | nil => simp
        | cons w ws =>
          refine (foldl_push_back_no_evict (w :: ws) d ?_).symm
          simp only [List.length_cons] at hlen ⊢
          omega
      · rfl
    · next heq => exact Option.noConfusion heq

/-- Witness for `C4_extend_refines`: a deque of capacity 3 containing `[1]`
extended with `[2, 3, 4, 5]` (oversized exact hint, and no hint) agrees with
iterated `push_back` and holds `[3, 4, 5]`; a fitting hint (`[2, 3]`,
hint 2) takes the bulk path with the same result. -/
theorem C4_extend_refines_witness :
    ((Deque.from_vec [1] 3 : Deque Nat).extend [2, 3, 4, 5] (some 4) =
      [2, 3, 4, 5].foldl (fun s v => (s.push_back v).1) (Deque.from_vec [1] 3)) ∧
    ((Deque.from_vec [1] 3 : Deque Nat).extend [2, 3] (some 2) =
      [2, 3].foldl (fun s v => (s.push_back v).1) (Deque.from_vec [1] 3)) ∧
    ((Deque.from_vec [1] 3 : Deque Nat).extend [2, 3, 4, 5] (some 4)).deque = [3, 4, 5] ∧
    ((Deque.from_vec [1] 3 : Deque Nat).extend [2, 3, 4, 5] none).deque = [3, 4, 5] ∧
    ((Deque.from_vec [1] 3 : Deque Nat).extend [2, 3] (some 2)).deque = [1, 2, 3] :=
  ⟨C4_extend_refines (Deque.from_vec [1] 3) [2, 3, 4, 5] (some 4)
      (fun u h => by cases h; decide),
   C4_extend_refines (Deque.from_vec [1] 3) [2, 3] (some 2)
      (fun u h => by cases h; decide),
   by decide, by decide, by decide⟩

/-- **C5**: `extend_front` is exactly iterated `push_front` in iteration
order (so each insertion on a full deque evicts from the back, as
`push_front` does), and when everything fits the prepended batch ends up in
reverse iteration order in front of the old contents. -/
theorem C5_extend_front_order {T : Type} (d : Deque T) (vs : List T) :
    d.extend_front vs = vs.foldl (fun s v => (s.push_front v).1) d ∧
    (d.len + vs.length ≤ d.maxlen →
      (d.extend_front vs).deque = vs.reverse ++ d.deque) :=
  ⟨rfl, fun h => foldl_push_front_no_evict vs d h⟩

/-- Witness for `C5_extend_front_order`: `[4, 5]` with capacity 5 after
`extend_front([1, 2, 3])` holds `[3, 2, 1, 4, 5]` front to back. -/
theorem C5_extend_front_order_witness :
    (Deque.from_vec [4, 5] 5 : Deque Nat).len + 3 ≤ 5 ∧
    ((Deque.from_vec [4, 5] 5 : Deque Nat).extend_front [1, 2, 3]).deque =
      [1, 2, 3].reverse ++ [4, 5] ∧
    ((Deque.from_vec [4, 5] 5 : Deque Nat).extend_front [1, 2, 3]).deque =
      [3, 2, 1, 4, 5] :=
  ⟨by decide, (C5_extend_front_order (Deque.from_vec [4, 5] 5) [1, 2, 3]).2 (by decide),
   by decide⟩

/-- **C6**: constructing from a sequence of length L with capacity C keeps
exactly the first `min L C` elements in their original order; when `L ≤ C`
everything is kept unchanged. -/
theorem C6_truncating_construction {T : Type} (vs : List T) (C : Nat) :
    (Deque.from_vec vs C).deque = vs.take C ∧
    (Deque.from_vec vs C).maxlen = C ∧
    (Deque.from_vec vs C).len = min vs.length C ∧
    (∀ i, i < min vs.length C → (Deque.from_vec vs C).get i = vs[i]?) ∧
    (vs.length ≤ C → (Deque.from_vec vs C).deque = vs) := by
  refine ⟨rfl, rfl, ?_, ?_, ?_⟩
  · show (vs.take C).length = min vs.length C
    rw [List.length_take]
    omega
  · intro i hi
    show (vs.take C)[i]? = vs[i]?
    rw [List.getElem?_take, if_pos (by omega : i < C)]
  · intro h
    show vs.take C = vs
    exact List.take_of_length_le h

/-- Witness for `C6_truncating_construction`: an oversized source
`[1, 2, 3, 4, 5]` with capacity 3 keeps `[1, 2, 3]`, and a fitting source is
kept whole. -/
theorem C6_truncating_construction_witness :
    (Deque.from_vec [1, 2, 3, 4, 5] 3 : Deque Nat).deque = [1, 2, 3, 4, 5].take 3 ∧
    (Deque.from_vec [1, 2, 3, 4, 5] 3 : Deque Nat).deque = [1, 2, 3] ∧
    ([1, 2] : List Nat).length ≤ 4 ∧
    (Deque.from_vec [1, 2] 4 : Deque Nat).deque = [1, 2] :=
  ⟨(C6_truncating_construction [1, 2, 3, 4, 5] 3).1, by decide, by decide,
   (C6_truncating_construction [1, 2] 4).2.2.2.2 (by decide)⟩

/-- **C7**: rebuilding a deque from its own element sequence and its own
capacity reproduces a deque that compares equal (indeed, is identical) —
provided the deque satisfies `len() ≤ capacity`. -/
theorem C7_round_trip {T : Type} [DecidableEq T] (d : Deque T)
    (h : d.len ≤ d.maxlen) :
    Deque.deqEq (Deque.from_vec d.deque d.maxlen) d = true ∧
    Deque.from_vec d.deque d.maxlen = d := by
  have ht : d.deque.take d.maxlen = d.deque := List.take_of_length_le h
  constructor
  · show (d.deque.take d.maxlen == d.deque) = true
    rw [ht]
    simp
  · show ({ deque := d.deque.take d.maxlen, maxlen := d.maxlen } : Deque T) = d
    rw [ht]

/-- Witness for `C7_round_trip` at `[7, 8]` with capacity 5. -/
theorem C7_round_trip_witness :
    (Deque.from_vec [7, 8] 5 : Deque Nat).len ≤ (Deque.from_vec [7, 8] 5 : Deque Nat).maxlen ∧
    Deque.deqEq
      (Deque.from_vec (Deque.from_vec [7, 8] 5 : Deque Nat).deque
        (Deque.from_vec [7, 8] 5 : Deque Nat).maxlen)
      (Deque.from_vec [7, 8] 5) = true :=
  ⟨by decide, (C7_round_trip (Deque.from_vec [7, 8] 5) (by decide)).1⟩

/-- **C8**: two deques compare equal exactly when their element sequences
have the same length and the same elements in the same order; the `maxlen`
fields play no role, so any two deques with identical element sequences are
equal no matter their capacities. -/
theorem C8_equality_ignores_capacity {T : Type} [DecidableEq T] (a b : Deque T) :
    (Deque.deqEq a b = true ↔
      (a.len = b.len ∧ ∀ i, i < a.len → a.get i = b.get i)) ∧
    (a.deque = b.deque → Deque.deqEq a b = true) := by
  have hbeq : Deque.deqEq a b = true ↔ a.deque = b.deque := by
    show (a.deque == b.deque) = true ↔ _
    exact beq_iff_eq
  constructor
  · rw [hbeq]
    constructor
    · intro h
      constructor
      · show a.deque.length = b.deque.length
        rw [h]
      · intro i _
        show a.deque[i]? = b.deque[i]?
        rw [h]
    · rintro ⟨hlen, hget⟩
      have hlen' : a.deque.length = b.deque.length := hlen
      apply List.ext_getElem?
      intro n
      by_cases hn : n < a.deque.length
      · exact hget n hn
      · rw [List.getElem?_eq_none (by omega), List.getElem?_eq_none (by omega)]
  · intro h
    rw [hbeq]
    exact h

/-- Witness for `C8_equality_ignores_capacity`: `[1, 2]` with capacity 5 and
`[1, 2]` with capacity 9 compare equal. -/
theorem C8_equality_ignores_capacity_witness :
    (Deque.from_vec [1, 2] 5 : Deque Nat).deque = (Deque.from_vec [1, 2] 9 : Deque Nat).deque ∧
    Deque.deqEq (Deque.from_vec [1, 2] 5 : Deque Nat) (Deque.from_vec [1, 2] 9) = true ∧
    (Deque.from_vec [1, 2] 5 : Deque Nat).maxlen ≠ (Deque.from_vec [1, 2] 9 : Deque Nat).maxlen :=
  ⟨by decide,
   (C8_equality_ignores_capacity (Deque.from_vec [1, 2] 5) (Deque.from_vec [1, 2] 9)).2
     (by decide),
   by decide⟩

/-- **C9**: `rotate_left(n)` and `rotate_right(n)` panic (modelled as `none`)
exactly when `n > len()`; for `n ≤ len()` they return normally, preserve the
length and capacity, and cyclically shift the elements by `n` positions
(`rotate_left` sends the old element at index `(i + n) % len` to index `i`,
`rotate_right` the old element at index `(i + len - n) % len`); `n = len()`
leaves the element sequence unchanged. -/
theorem C9_rotate_bounds {T : Type} (d : Deque T) (n : Nat) :
    (d.rotate_left n = none ↔ d.len < n) ∧
    (d.rotate_right n = none ↔ d.len < n) ∧
    (n ≤ d.len →
      ∃ d', d.rotate_left n = some d' ∧ d'.len = d.len ∧ d'.maxlen = d.maxlen ∧
        ∀ i, i < d.len → d'.get i = d.get ((i + n) % d.len)) ∧
    (n ≤ d.len →
      ∃ d', d.rotate_right n = some d' ∧ d'.len = d.len ∧ d'.maxlen = d.maxlen ∧
        ∀ i, i < d.len → d'.get i = d.get ((i + (d.len - n)) % d.len)) ∧
    (n = d.len → d.rotate_left n = some d ∧ d.rotate_right n = some d) := by
  have hL : d.len = d.deque.length := rfl
  refine ⟨?_, ?_, ?_, ?_, ?_⟩
  · unfold Deque.rotate_left
    split
    · next h => simp only [hL]; constructor <;> intro hc <;> [exact Option.noConfusion hc; omega]
    · next h => simp only [hL]; constructor <;> intro _ <;> [omega; trivial]
  · unfold Deque.rotate_right
    split
    · next h => simp only [hL]; constructor <;> intro hc <;> [exact Option.noConfusion hc; omega]
    · next h => simp only [hL]; constructor <;> intro _ <;> [omega; trivial]
  · intro hn
    have hn' : n ≤ d.deque.length := hn
    refine ⟨{ d with deque := d.deque.rotate n }, ?_, ?_, rfl, ?_⟩
    · unfold Deque.rotate_left
      rw [if_pos hn', List.rotate_eq_drop_append_take hn']
    · show (d.deque.rotate n).length = d.deque.length
      exact List.length_rotate d.deque n
    · intro i hi
      show (d.deque.rotate n)[i]? = d.deque[(i + n) % d.deque.length]?
      exact List.getElem?_rotate hi
  · intro hn
    have hn' : n ≤ d.deque.length := hn
    have hsub : d.deque.length - n ≤ d.deque.length := Nat.sub_le _ _
    refine ⟨{ d with deque := d.deque.rotate (d.deque.length - n) }, ?_, ?_, rfl, ?_⟩
    · unfold Deque.rotate_right
      rw [if_pos hn', List.rotate_eq_drop_append_take hsub]
    · show (d.deque.rotate _).length = d.deque.length
      exact List.length_rotate d.deque _
    · intro i hi
      show (d.deque.rotate _)[i]? = d.deque[(i + (d.deque.length - n)) % d.deque.length]?
      exact List.getElem?_rotate hi
  · intro hn
    have hn2 : n = d.deque.length := hn
    have hn' : n ≤ d.deque.length := Nat.le_of_eq hn2
    constructor
    · unfold Deque.rotate_left
      rw [if_pos hn', hn2, List.drop_length, List.take_length, List.nil_append]
    · unfold Deque.rotate_right
      rw [if_pos hn', hn2, Nat.sub_self, List.drop_zero, List.take_zero, List.append_nil]

/-- Witness for `C9_rotate_bounds` on `[1, 2, 3, 4, 5]` (capacity 10):
rotating by 6 > 5 panics, rotating by `len = 5` returns the deque unchanged,
and rotating left by 2 yields `[3, 4, 5, 1, 2]`. -/
theorem C9_rotate_bounds_witness :
    ((Deque.from_vec [1, 2, 3, 4, 5] 10 : Deque Nat).len < 6 ∧
      (Deque.from_vec [1, 2, 3, 4, 5] 10 : Deque Nat).rotate_left 6 = none) ∧
    (5 = (Deque.from_vec [1, 2, 3, 4, 5] 10 : Deque Nat).len ∧
      (Deque.from_vec [1, 2, 3, 4, 5] 10 : Deque Nat).rotate_left 5 =
        some (Deque.from_vec [1, 2, 3, 4, 5] 10) ∧
      (Deque.from_vec [1, 2, 3, 4, 5] 10 : Deque Nat).rotate_right 5 =
        some (Deque.from_vec [1, 2, 3, 4, 5] 10)) ∧
    ((Deque.from_vec [1, 2, 3, 4, 5] 10 : Deque Nat).rotate_left 2).map (·.deque) =
      some [3, 4, 5, 1, 2] :=
  ⟨⟨by decide, (C9_rotate_bounds (Deque.from_vec [1, 2, 3, 4, 5] 10) 6).1.mpr (by decide)⟩,
   ⟨by decide,
    (C9_rotate_bounds (Deque.from_vec [1, 2, 3, 4, 5] 10) 5).2.2.2.2 (by decide)⟩,
   by decide⟩

/-- **C10** is false as stated: collecting an *empty* iterator yields
capacity 0 and `is_full()`, but the very next push evicts nothing — it
returns `None` (there is no element to pop) and leaves a deque of length 1,
which even violates `len() ≤ maxlen`. -/
theorem C10_counterexample :
    (Deque.from_iter ([] : List Nat)).is_full = true ∧
    ((Deque.from_iter ([] : List Nat)).push_back 5).2 = none ∧
    ¬ (((Deque.from_iter ([] : List Nat)).push_back 5).1.len ≤
        (Deque.from_iter ([] : List Nat)).maxlen) := by
  decide

/-- **C10 (amended)**: collecting a finite iterator yields a deque whose
capacity equals the number of collected elements, holding exactly those
elements, and which always satisfies `is_full()`; whenever at least one
element was collected, the very next `push_back` evicts: it returns the old
front element and keeps the length at capacity. -/
theorem C10_from_iter_full {T : Type} (vs : List T) (v : T) :
    (Deque.from_iter vs).maxlen = vs.length ∧
    (Deque.from_iter vs).deque = vs ∧
    (Deque.from_iter vs).is_full = true ∧
    (vs ≠ [] →
      ((Deque.from_iter vs).push_back v).2 = vs.head? ∧
      ((Deque.from_iter vs).push_back v).2.isSome = true ∧
      ((Deque.from_iter vs).push_back v).1.len = vs.length) := by
  have hd : (Deque.from_iter vs).deque = vs := by
    show vs.take vs.length = vs
    exact List.take_length vs
  have hfull : (Deque.from_iter vs).deque.length = (Deque.from_iter vs).maxlen := by
    rw [hd]
    rfl
  refine ⟨rfl, hd, ?_, ?_⟩
  · show ((Deque.from_iter vs).deque.length == (Deque.from_iter vs).maxlen) = true
    rw [hfull]
    simp
  · intro hne
    unfold Deque.push_back
    rw [if_pos hfull]
    refine ⟨by rw [hd], ?_, ?_⟩
    · show (Deque.from_iter vs).deque.head?.isSome = true
      rw [hd]
      exact List.head?_isSome.mpr hne
    · show ((Deque.from_iter vs).deque.tail ++ [v]).length = vs.length
      rw [List.length_append, List.length_tail, hd]
      have : 1 ≤ vs.length := List.length_pos.mpr hne
      simp only [List.length_cons, List.length_nil]
      omega

/-- Witness for `C10_from_iter_full`: collecting `[1, 2, 3]` gives capacity
3, `is_full`, and the next push evicts the front element 1. -/
theorem C10_from_iter_full_witness :
    (Deque.from_iter [1, 2, 3] : Deque Nat).is_full = true ∧
    ([1, 2, 3] : List Nat) ≠ [] ∧
    ((Deque.from_iter [1, 2, 3] : Deque Nat).push_back 4).2 = ([1, 2, 3] : List Nat).head? ∧
    ((Deque.from_iter [1, 2, 3] : Deque Nat).push_back 4).2 = some 1 :=
  ⟨(C10_from_iter_full ([1, 2, 3] : List Nat) 4).2.2.1, by decide,
   ((C10_from_iter_full ([1, 2, 3] : List Nat) 4).2.2.2 (by decide)).1, by decide⟩

end FixedDeque
